import Mathlib

/-!
Verification of the core simulation/geometry logic of the Snake3DGame
repository (src/src/components/Snake3DGame.tsx) against its
natural-language specification.

Numbers are modelled as exact reals; JavaScript's `%` operator on doubles
(truncated remainder) is modelled by `jsRem` below.  Three.js vector
operations (`distanceTo`, `lerp`, `normalize`, `length`) are embedded
componentwise on a `Vec3` structure.
-/

noncomputable section

/-- `ARENA_SIZE` constant (Snake3DGame.tsx line 4). -/
def ARENA_SIZE : ℝ := 60

/-- `HALF_ARENA` constant (line 5). -/
def HALF_ARENA : ℝ := ARENA_SIZE / 2

/-- `BASE_SPEED` constant in units/sec (line 7). -/
def BASE_SPEED : ℝ := 8.0

/-- `TURN_SPEED` constant in rad/sec (line 8). -/
def TURN_SPEED : ℝ := 2.3

/-- `SEGMENT_SPACING` constant (line 9). -/
def SEGMENT_SPACING : ℝ := 0.6

/-- `BASE_LENGTH` constant (line 10). -/
def BASE_LENGTH : ℝ := 5.5

/-- `LENGTH_PER_SCORE` constant (line 11). -/
def LENGTH_PER_SCORE : ℝ := 0.85

/-- `FOOD_RADIUS` constant (line 13). -/
def FOOD_RADIUS : ℝ := 0.38

/-- `HEAD_RADIUS` constant (line 14). -/
def HEAD_RADIUS : ℝ := 0.75

/-- Truncation toward zero, as used by JavaScript's `%` operator. -/
def jsTrunc (q : ℝ) : ℤ := if 0 ≤ q then ⌊q⌋ else ⌈q⌉

/-- JavaScript's `%` operator on (finite, nonzero-divisor) doubles:
`a % b = a - b * trunc(a / b)`. -/
def jsRem (a b : ℝ) : ℝ := a - b * (jsTrunc (a / b) : ℝ)

/-- `clamp` (lines 25-27): `Math.min(Math.max(value, min), max)`. -/
def clamp (value lo hi : ℝ) : ℝ := min (max value lo) hi

/-- `wrapCoord` (lines 29-32):
`((value + HALF_ARENA) % ARENA_SIZE + ARENA_SIZE) % ARENA_SIZE - HALF_ARENA`. -/
def wrapCoord (value : ℝ) : ℝ :=
  jsRem (jsRem (value + HALF_ARENA) ARENA_SIZE + ARENA_SIZE) ARENA_SIZE - HALF_ARENA

/-- `wrapDelta` (lines 34-37): same double-modulo construction as `wrapCoord`. -/
def wrapDelta (delta : ℝ) : ℝ :=
  jsRem (jsRem (delta + HALF_ARENA) ARENA_SIZE + ARENA_SIZE) ARENA_SIZE - HALF_ARENA

/-! ### Basic facts about the double-modulo construction -/

lemma jsTrunc_of_nonneg {q : ℝ} (h : 0 ≤ q) : jsTrunc q = ⌊q⌋ := if_pos h

lemma jsTrunc_of_neg {q : ℝ} (h : q < 0) : jsTrunc q = ⌈q⌉ := if_neg (not_le.mpr h)

/-- The double modulo `((x % b) + b) % b` with positive `b` computes the
mathematical (floor-based) modulus `x - b * ⌊x / b⌋`. -/
lemma jsRem_double (x b : ℝ) (hb : 0 < b) :
    jsRem (jsRem x b + b) b = x - b * (⌊x / b⌋ : ℤ) := by
  rcases le_or_lt 0 x with hx | hx
  · -- first remainder is already the floor-based modulus, landing in [0, b)
    have hq : 0 ≤ x / b := div_nonneg hx hb.le
    have h1 : jsRem x b = x - b * (⌊x / b⌋ : ℤ) := by
      simp [jsRem, jsTrunc_of_nonneg hq]
    have hfr0 : 0 ≤ x / b - (⌊x / b⌋ : ℤ) := by
      have := Int.floor_le (x / b); linarith
    have hfr1 : x / b - (⌊x / b⌋ : ℤ) < 1 := by
      have := Int.lt_floor_add_one (x / b); linarith
    have hr0 : 0 ≤ x - b * (⌊x / b⌋ : ℤ) := by
      have := mul_le_mul_of_nonneg_left hfr0 hb.le
      calc (0:ℝ) ≤ b * (x / b - (⌊x / b⌋ : ℤ)) := by positivity
        _ = x - b * (⌊x / b⌋ : ℤ) := by field_simp
    have hr1 : x - b * (⌊x / b⌋ : ℤ) < b := by
      have h := (mul_lt_mul_left hb).mpr hfr1
      calc x - b * (⌊x / b⌋ : ℤ) = b * (x / b - (⌊x / b⌋ : ℤ)) := by field_simp
        _ < b * 1 := h
        _ = b := mul_one b
    -- second pass: ((x mod b) + b)/b lies in [1, 2), so its floor is 1
    have hq2 : ((x - b * (⌊x / b⌋ : ℤ)) + b) / b = (x - b * (⌊x / b⌋ : ℤ)) / b + 1 := by
      field_simp
    have hfl : ⌊((x - b * (⌊x / b⌋ : ℤ)) + b) / b⌋ = 1 := by
      rw [hq2]
      have h01 : 0 ≤ (x - b * (⌊x / b⌋ : ℤ)) / b := div_nonneg hr0 hb.le
      have h02 : (x - b * (⌊x / b⌋ : ℤ)) / b < 1 := (div_lt_one hb).mpr hr1
      have : ⌊(x - b * (⌊x / b⌋ : ℤ)) / b⌋ = 0 := Int.floor_eq_zero_iff.mpr ⟨h01, h02⟩
      rw [Int.floor_add_one, this]
      norm_num
    have hq2' : 0 ≤ ((x - b * (⌊x / b⌋ : ℤ)) + b) / b :=
      div_nonneg (by linarith) hb.le
    rw [h1, jsRem, jsTrunc_of_nonneg hq2', hfl]
    push_cast
    ring
  · -- negative input: first remainder lands in (-b, 0]
    have hq : x / b < 0 := div_neg_of_neg_of_pos hx hb
    have h1 : jsRem x b = x - b * (⌈x / b⌉ : ℤ) := by
      simp [jsRem, jsTrunc_of_neg hq]
    have hc0 : x / b - (⌈x / b⌉ : ℤ) ≤ 0 := by
      have := Int.le_ceil (x / b); linarith
    have hc1 : -1 < x / b - (⌈x / b⌉ : ℤ) := by
      have := Int.ceil_lt_add_one (x / b); linarith
    have hr0 : x - b * (⌈x / b⌉ : ℤ) ≤ 0 := by
      calc x - b * (⌈x / b⌉ : ℤ) = b * (x / b - (⌈x / b⌉ : ℤ)) := by field_simp
        _ ≤ b * 0 := mul_le_mul_of_nonneg_left hc0 hb.le
        _ = 0 := mul_zero b
    have hr1 : -b < x - b * (⌈x / b⌉ : ℤ) := by
      have h := (mul_lt_mul_left hb).mpr hc1
      calc -b = b * (-1) := by ring
        _ < b * (x / b - (⌈x / b⌉ : ℤ)) := h
        _ = x - b * (⌈x / b⌉ : ℤ) := by field_simp
    rcases eq_or_lt_of_le hr0 with heq | hlt
    · -- x is an exact multiple of b
      have hxb : x = b * (⌈x / b⌉ : ℤ) := by linarith
      have hfloor : ⌊x / b⌋ = ⌈x / b⌉ := by
        have hv : x / b = ((⌈x / b⌉ : ℤ) : ℝ) := by
          rw [hxb]; field_simp
        conv_lhs => rw [hv]
        rw [Int.floor_intCast]
      have h20 : jsRem (0 + b) b = 0 := by
        rw [jsRem, show (0 + b) / b = 1 by field_simp,
          jsTrunc_of_nonneg (by norm_num : (0:ℝ) ≤ 1), Int.floor_one]
        push_cast
        ring
      rw [h1, heq, h20, hfloor, ← hxb]
      ring
    · -- x is not a multiple of b: second pass keeps the value, shifted by +b
      have hne : ⌈x / b⌉ = ⌊x / b⌋ + 1 := by
        rcases eq_or_lt_of_le (Int.floor_le_ceil (x / b)) with h | h
        · exfalso
          have hint : x / b = ((⌊x / b⌋ : ℤ) : ℝ) := by
            have h1' := Int.floor_le (x / b)
            have h2' := Int.le_ceil (x / b)
            rw [← h] at h2'
            linarith
          have : x - b * (⌈x / b⌉ : ℤ) = 0 := by
            rw [← h, ← hint]; field_simp
          linarith
        · have := Int.ceil_le_floor_add_one (x / b)
          omega
      have hval0 : 0 < (x - b * (⌈x / b⌉ : ℤ)) + b := by linarith
      have hval1 : (x - b * (⌈x / b⌉ : ℤ)) + b ≤ b := by linarith
      have hdiv0 : 0 < ((x - b * (⌈x / b⌉ : ℤ)) + b) / b := div_pos hval0 hb
      have hdiv1 : ((x - b * (⌈x / b⌉ : ℤ)) + b) / b < 1 := by
        apply (div_lt_one hb).mpr
        rcases eq_or_lt_of_le hval1 with he | hl
        · exfalso
          have : x - b * (⌈x / b⌉ : ℤ) = 0 := by linarith
          linarith
        · exact hl
      have hfl : ⌊((x - b * (⌈x / b⌉ : ℤ)) + b) / b⌋ = 0 :=
        Int.floor_eq_zero_iff.mpr ⟨hdiv0.le, hdiv1⟩
      rw [h1, jsRem, jsTrunc_of_nonneg hdiv0.le, hfl, hne]
      push_cast
      ring

/-- Closed form of `wrapCoord`: subtract the right multiple of `ARENA_SIZE`. -/
lemma wrapCoord_eq (v : ℝ) :
    wrapCoord v = v - (⌊(v + HALF_ARENA) / ARENA_SIZE⌋ : ℤ) * ARENA_SIZE := by
  have h := jsRem_double (v + HALF_ARENA) ARENA_SIZE (by norm_num [ARENA_SIZE])
  rw [wrapCoord, h]
  ring

/-- `wrapCoord` and `wrapDelta` share the same body. -/
lemma wrapDelta_eq_wrapCoord (v : ℝ) : wrapDelta v = wrapCoord v := rfl

/-- `wrapCoord` lands in the canonical half-open interval. -/
lemma wrapCoord_mem (v : ℝ) :
    -HALF_ARENA ≤ wrapCoord v ∧ wrapCoord v < HALF_ARENA := by
  rw [wrapCoord_eq]
  have h1 := Int.floor_le ((v + HALF_ARENA) / ARENA_SIZE)
  have h2 := Int.lt_floor_add_one ((v + HALF_ARENA) / ARENA_SIZE)
  have hA : (0:ℝ) < ARENA_SIZE := by norm_num [ARENA_SIZE]
  constructor
  · have := (mul_le_mul_of_nonneg_right h1 hA.le)
    rw [div_mul_cancel₀ _ (ne_of_gt hA)] at this
    have hH : HALF_ARENA = ARENA_SIZE / 2 := rfl
    nlinarith
  · have := (mul_lt_mul_of_pos_right h2 hA)
    rw [div_mul_cancel₀ _ (ne_of_gt hA)] at this
    have hH : HALF_ARENA = ARENA_SIZE / 2 := rfl
    nlinarith

/-- `wrapCoord` is invariant under shifting by integer multiples of the arena. -/
lemma wrapCoord_add_int (v : ℝ) (k : ℤ) :
    wrapCoord (v + k * ARENA_SIZE) = wrapCoord v := by
  rw [wrapCoord_eq, wrapCoord_eq]
  have hA : (ARENA_SIZE : ℝ) ≠ 0 := by norm_num [ARENA_SIZE]
  have : (v + k * ARENA_SIZE + HALF_ARENA) / ARENA_SIZE
      = (v + HALF_ARENA) / ARENA_SIZE + k := by
    field_simp
    ring
  rw [this, Int.floor_add_int]
  push_cast
  ring

/-- Fixed point: values already in the canonical range are unchanged. -/
lemma wrapCoord_eq_self {v : ℝ} (h1 : -HALF_ARENA ≤ v) (h2 : v < HALF_ARENA) :
    wrapCoord v = v := by
  rw [wrapCoord_eq]
  have hfl : ⌊(v + HALF_ARENA) / ARENA_SIZE⌋ = 0 := by
    apply Int.floor_eq_zero_iff.mpr
    constructor
    · apply div_nonneg _ (by norm_num [ARENA_SIZE])
      have : HALF_ARENA = ARENA_SIZE / 2 := rfl
      norm_num [HALF_ARENA] at h1 ⊢
      linarith
    · apply (div_lt_one (by norm_num [ARENA_SIZE])).mpr
      norm_num [HALF_ARENA, ARENA_SIZE] at h2 ⊢
      linarith
  rw [hfl]
  push_cast
  ring

/-- Evaluation helper: if `v - k * ARENA_SIZE` lies in the canonical range then
it is the value of `wrapCoord v`. -/
lemma wrapCoord_eq_sub (v : ℝ) (k : ℤ) (h1 : -HALF_ARENA ≤ v - k * ARENA_SIZE)
    (h2 : v - k * ARENA_SIZE < HALF_ARENA) :
    wrapCoord v = v - k * ARENA_SIZE := by
  have h := wrapCoord_add_int (v - k * ARENA_SIZE) k
  rw [show v - (k : ℝ) * ARENA_SIZE + k * ARENA_SIZE = v by ring] at h
  rw [h, wrapCoord_eq_self h1 h2]

/-- `wrapCoord v` differs from `v` by an integer multiple of `ARENA_SIZE`. -/
lemma wrapCoord_congr (v : ℝ) : ∃ k : ℤ, v - wrapCoord v = k * ARENA_SIZE := by
  exact ⟨⌊(v + HALF_ARENA) / ARENA_SIZE⌋, by rw [wrapCoord_eq]; ring⟩

/-- Among all representatives of `v` modulo `ARENA_SIZE`, the wrapped value has
the least absolute value. -/
lemma wrapCoord_abs_min (v y : ℝ) (h : ∃ k : ℤ, v - y = k * ARENA_SIZE) :
    |wrapCoord v| ≤ |y| := by
  obtain ⟨k, hk⟩ := h
  obtain ⟨k0, hk0⟩ := wrapCoord_congr v
  have hmem := wrapCoord_mem v
  have habs : |wrapCoord v| ≤ HALF_ARENA := by
    rw [abs_le]
    exact ⟨hmem.1, hmem.2.le⟩
  have hdiff : wrapCoord v - y = ((k - k0 : ℤ) : ℝ) * ARENA_SIZE := by
    push_cast
    linarith [hk, hk0]
  rcases eq_or_ne (k - k0) 0 with hz | hz
  · rw [hz] at hdiff
    push_cast at hdiff
    have : wrapCoord v = y := by linarith
    rw [this]
  · have h1 : (1 : ℝ) ≤ |((k - k0 : ℤ) : ℝ)| := by
      rw [← Int.cast_abs]
      exact_mod_cast Int.one_le_abs hz
    have hA : (0:ℝ) < ARENA_SIZE := by norm_num [ARENA_SIZE]
    have h2 : ARENA_SIZE ≤ |wrapCoord v - y| := by
      rw [hdiff, abs_mul, abs_of_pos hA]
      nlinarith
    have h3 : |y| ≥ |wrapCoord v - y| - |wrapCoord v| := by
      have := abs_sub_abs_le_abs_sub (wrapCoord v - y) (wrapCoord v)
      have heq : wrapCoord v - y - wrapCoord v = -y := by ring
      rw [heq, abs_neg] at this
      linarith
    have : HALF_ARENA = ARENA_SIZE / 2 := rfl
    linarith

/-- Wrapping a difference never increases its absolute value. -/
lemma wrapCoord_abs_le_self (v : ℝ) : |wrapCoord v| ≤ |v| :=
  wrapCoord_abs_min v v ⟨0, by push_cast; ring⟩

/-- If `|v| ≤ HALF_ARENA` the wrapped value has the same square. -/
lemma wrapCoord_sq_of_abs_le {v : ℝ} (h : |v| ≤ HALF_ARENA) :
    (wrapCoord v) ^ 2 = v ^ 2 := by
  rw [abs_le] at h
  rcases lt_or_eq_of_le h.2 with hlt | hv
  · rw [wrapCoord_eq_self h.1 hlt]
  · have h30 : wrapCoord v = v - (1 : ℤ) * ARENA_SIZE := by
      apply wrapCoord_eq_sub
      · rw [hv]
        norm_num [HALF_ARENA, ARENA_SIZE]
      · rw [hv]
        norm_num [HALF_ARENA, ARENA_SIZE]
    rw [h30, hv]
    norm_num [ARENA_SIZE, HALF_ARENA]

/-! ### Three.js vectors (componentwise embedding) -/

/-- A three.js `Vector3`. -/
structure Vec3 where
  x : ℝ
  y : ℝ
  z : ℝ

/-- `Vector3.length()`: Euclidean norm. -/
def vecLength (v : Vec3) : ℝ := Real.sqrt (v.x ^ 2 + v.y ^ 2 + v.z ^ 2)

/-- `Vector3.normalize()`: three.js divides by `length() || 1`. -/
def Vec3.normalize (v : Vec3) : Vec3 :=
  let l := if vecLength v = 0 then 1 else vecLength v
  ⟨v.x / l, v.y / l, v.z / l⟩

/-- `Vector3.distanceTo(v)`: Euclidean distance in 3-space. -/
def distanceTo (a b : Vec3) : ℝ := vecLength ⟨a.x - b.x, a.y - b.y, a.z - b.z⟩

/-- `Vector3.lerp(v, alpha)`: componentwise `this + (v - this) * alpha`. -/
def lerp (a b : Vec3) (t : ℝ) : Vec3 :=
  ⟨a.x + (b.x - a.x) * t, a.y + (b.y - a.y) * t, a.z + (b.z - a.z) * t⟩

/-- `wrapVectorXZ` (lines 39-41): wrap x/z, keep y. -/
def wrapVectorXZ (v : Vec3) : Vec3 := ⟨wrapCoord v.x, v.y, wrapCoord v.z⟩

/-- `torusDistanceXZ` (lines 49-53): `Math.hypot(wrapDelta dx, wrapDelta dz)`. -/
def torusDistanceXZ (a b : Vec3) : ℝ :=
  Real.sqrt ((wrapDelta (a.x - b.x)) ^ 2 + (wrapDelta (a.z - b.z)) ^ 2)

/-- `forwardFromYaw` (lines 72-74): `(sin yaw, 0, -cos yaw).normalize()`. -/
def forwardFromYaw (yaw : ℝ) : Vec3 :=
  Vec3.normalize ⟨Real.sin yaw, 0, -Real.cos yaw⟩

lemma sqrt_eval {a b : ℝ} (hb : 0 ≤ b) (h : b ^ 2 = a) : Real.sqrt a = b := by
  rw [← h]
  exact Real.sqrt_sq hb

lemma distanceTo_nonneg (a b : Vec3) : 0 ≤ distanceTo a b := Real.sqrt_nonneg _

/-- The yaw-derived forward vector is already unit length. -/
lemma forwardFromYaw_eq (yaw : ℝ) :
    forwardFromYaw yaw = ⟨Real.sin yaw, 0, -Real.cos yaw⟩ := by
  have hlen : vecLength ⟨Real.sin yaw, 0, -Real.cos yaw⟩ = 1 := by
    apply sqrt_eval (by norm_num)
    have := Real.sin_sq_add_cos_sq yaw
    simp only []
    nlinarith
  simp [forwardFromYaw, Vec3.normalize, hlen]

/-- Translating two points by a common XZ shift preserves their distance. -/
lemma distanceTo_shift (p q : Vec3) (sx sz : ℝ) :
    distanceTo ⟨p.x - sx, p.y, p.z - sz⟩ ⟨q.x - sx, q.y, q.z - sz⟩ = distanceTo p q := by
  simp only [distanceTo, vecLength]
  ring_nf

/-- Distance from `a` to the interpolation point at parameter `t ≥ 0`. -/
lemma distanceTo_lerp (a b : Vec3) (t : ℝ) (ht : 0 ≤ t) :
    distanceTo a (lerp a b t) = t * distanceTo a b := by
  simp only [distanceTo, vecLength, lerp]
  have h : (a.x - (a.x + (b.x - a.x) * t)) ^ 2 + (a.y - (a.y + (b.y - a.y) * t)) ^ 2 +
      (a.z - (a.z + (b.z - a.z) * t)) ^ 2 =
      t ^ 2 * ((a.x - b.x) ^ 2 + (a.y - b.y) ^ 2 + (a.z - b.z) ^ 2) := by ring
  rw [h, Real.sqrt_mul (sq_nonneg t), Real.sqrt_sq ht]

/-! ### Spine model -/

/-- The trimming phase of `integrateSpine` (lines 432-446), also called
`trimToLength` in the specification: walk the spine from the head consuming
arc length; the overshooting segment is cut by linear interpolation and
everything beyond the cut point is discarded. -/
def trimToLength : List Vec3 → ℝ → List Vec3
  | [], _ => []
  | [a], _ => [a]
  | a :: b :: rest, remaining =>
    let segLen := distanceTo a b
    if segLen ≤ remaining then
      a :: trimToLength (b :: rest) (remaining - segLen)
    else
      let t := if segLen = 0 then 0 else remaining / segLen
      [a, lerp a b t]

/-- `integrateSpine` (lines 418-447): push (or overwrite) the head sample,
then trim to the desired length. -/
def integrateSpine (headPos : Vec3) (desiredLength : ℝ) (spine : List Vec3) :
    List Vec3 :=
  match spine with
  | [] => [headPos]
  | last :: rest =>
    let spine1 :=
      if distanceTo last headPos > 0.01 then headPos :: last :: rest
      else headPos :: rest
    trimToLength spine1 desiredLength

/-- `sampleAlongSpine` (lines 449-464): read-only arc-length walk; clamps to
the tail point when the distance exceeds the total spine length. -/
def sampleAlongSpine : List Vec3 → ℝ → Vec3
  | [], _ => ⟨0, 0, 0⟩
  | [a], _ => a
  | a :: b :: rest, remaining =>
    let segLen := distanceTo a b
    if segLen ≤ remaining then sampleAlongSpine (b :: rest) (remaining - segLen)
    else
      let t := if segLen = 0 then 0 else remaining / segLen
      lerp a b t

/-- Cumulative per-segment Euclidean length of a spine polyline. -/
def cumLen : List Vec3 → ℝ
  | [] => 0
  | [_] => 0
  | a :: b :: rest => distanceTo a b + cumLen (b :: rest)

/-- Trimming never changes the front (head) sample. -/
lemma trimToLength_cons (a : Vec3) (rest : List Vec3) (d : ℝ) :
    ∃ tl, trimToLength (a :: rest) d = a :: tl := by
  match rest with
  | [] => exact ⟨[], rfl⟩
  | b :: rest' =>
    simp only [trimToLength]
    split
    · exact ⟨_, rfl⟩
    · exact ⟨_, rfl⟩

lemma cumLen_pair (a p : Vec3) : cumLen [a, p] = distanceTo a p := by
  simp [cumLen]

lemma cumLen_cons_cons (a b : Vec3) (rest : List Vec3) :
    cumLen (a :: b :: rest) = distanceTo a b + cumLen (b :: rest) := rfl

/-- The trimmed spine never exceeds the requested length. -/
theorem cumLen_trimToLength_le : ∀ (spine : List Vec3) (d : ℝ), 0 ≤ d →
    cumLen (trimToLength spine d) ≤ d
  | [], d, hd => by simpa [trimToLength, cumLen] using hd
  | [a], d, hd => by simpa [trimToLength, cumLen] using hd
  | a :: b :: rest, d, hd => by
    by_cases h : distanceTo a b ≤ d
    · simp only [trimToLength, if_pos h]
      obtain ⟨tl, htl⟩ := trimToLength_cons b rest (d - distanceTo a b)
      have ih := cumLen_trimToLength_le (b :: rest) (d - distanceTo a b)
        (by linarith)
      rw [htl] at ih ⊢
      rw [cumLen_cons_cons]
      linarith
    · push_neg at h
      have hs0 : distanceTo a b ≠ 0 := by
        intro h0
        rw [h0] at h
        linarith
      simp only [trimToLength, if_neg (not_le.mpr h), if_neg hs0]
      rw [cumLen_pair,
        distanceTo_lerp a b _ (div_nonneg hd (distanceTo_nonneg a b)),
        div_mul_cancel₀ _ hs0]

/-- When the pre-trim spine is at least `d` long, trimming gives exactly `d`. -/
theorem cumLen_trimToLength_eq : ∀ (spine : List Vec3) (d : ℝ), 0 ≤ d →
    d ≤ cumLen spine → cumLen (trimToLength spine d) = d
  | [], d, hd, hle => by
    simp only [cumLen] at hle
    simp only [trimToLength, cumLen]
    linarith
  | [a], d, hd, hle => by
    simp only [cumLen] at hle
    simp only [trimToLength, cumLen]
    linarith
  | a :: b :: rest, d, hd, hle => by
    by_cases h : distanceTo a b ≤ d
    · simp only [trimToLength, if_pos h]
      obtain ⟨tl, htl⟩ := trimToLength_cons b rest (d - distanceTo a b)
      rw [cumLen_cons_cons] at hle
      have ih := cumLen_trimToLength_eq (b :: rest) (d - distanceTo a b)
        (by linarith) (by linarith)
      rw [htl] at ih ⊢
      rw [cumLen_cons_cons, ih]
      ring
    · push_neg at h
      have hs0 : distanceTo a b ≠ 0 := by
        intro h0
        rw [h0] at h
        linarith
      simp only [trimToLength, if_neg (not_le.mpr h), if_neg hs0]
      rw [cumLen_pair,
        distanceTo_lerp a b _ (div_nonneg hd (distanceTo_nonneg a b)),
        div_mul_cancel₀ _ hs0]

/-! ### Game state and the simulation step -/

/-- `ControlsState` (lines 16-23). -/
structure ControlsState where
  keySteerLeft : Bool
  keySteerRight : Bool
  keyFaster : Bool
  keySlower : Bool
  touchSteerAxis : ℝ
  touchSpeedAxis : ℝ

/-- The settings the step reads through refs: wrap toggle (line 557) and
steering sensitivity (line 551). -/
structure Config where
  wrapEnabled : Bool
  steerSensitivity : ℝ

/-- The mutable refs owned by the simulation: head, yaw, spine, food, score,
camera rig position, and the lifecycle flags (lines 134-150, 413). -/
structure GameState where
  headPos : Vec3
  yaw : ℝ
  spine : List Vec3
  foodPos : Vec3
  score : ℕ
  cameraPos : Vec3
  isPaused : Bool
  isGameOver : Bool

/-- Net steer axis (lines 543-544). -/
def steerOf (c : ControlsState) : ℝ :=
  ((if c.keySteerRight then (1 : ℝ) else 0) - (if c.keySteerLeft then 1 else 0)) +
    c.touchSteerAxis

/-- Net speed axis (lines 546-547). -/
def speedAxisOf (c : ControlsState) : ℝ :=
  ((if c.keyFaster then (-1 : ℝ) else 0) + (if c.keySlower then 1 else 0)) +
    c.touchSpeedAxis

/-- Forward speed (lines 548-549). -/
def speedOf (c : ControlsState) : ℝ :=
  BASE_SPEED * (1 + 0.35 * clamp (-(speedAxisOf c)) (-1) 1)

/-- Yaw after one step (line 551). -/
def newYaw (cfg : Config) (c : ControlsState) (dt : ℝ) (s : GameState) : ℝ :=
  s.yaw + clamp (steerOf c) (-1) 1 * TURN_SPEED * cfg.steerSensitivity * dt

/-- Head position after kinematic integration (lines 553-555). -/
def movedHead (cfg : Config) (c : ControlsState) (dt : ℝ) (s : GameState) : Vec3 :=
  let f := forwardFromYaw (newYaw cfg c dt s)
  ⟨s.headPos.x + f.x * (speedOf c * dt), s.headPos.y + f.y * (speedOf c * dt),
    s.headPos.z + f.z * (speedOf c * dt)⟩

/-- Wrap-mode boundary policy (lines 558-574): refold head x/z and translate
every spine point and the camera rig by the same shift. -/
def applyWrap (headPos : Vec3) (spine : List Vec3) (cameraPos : Vec3) :
    Vec3 × List Vec3 × Vec3 :=
  let wrappedX := wrapCoord headPos.x
  let wrappedZ := wrapCoord headPos.z
  let shiftX := headPos.x - wrappedX
  let shiftZ := headPos.z - wrappedZ
  if shiftX ≠ 0 ∨ shiftZ ≠ 0 then
    (⟨wrappedX, headPos.y, wrappedZ⟩,
      spine.map fun p => ⟨p.x - shiftX, p.y, p.z - shiftZ⟩,
      ⟨cameraPos.x - shiftX, cameraPos.y, cameraPos.z - shiftZ⟩)
  else (headPos, spine, cameraPos)

/-- Distance metric for the food and self-collision checks (lines 587-589, 601):
torus metric under wrap mode, 3D Euclidean otherwise. -/
def hitDistOf (wrapEnabled : Bool) (headPos p : Vec3) : ℝ :=
  if wrapEnabled then torusDistanceXZ headPos p else distanceTo headPos p

/-- The self-collision test of the step (lines 599-607): some spine sample at
index `i ≥ 18` lies within `0.72` of the head. -/
def selfCollisionHit (wrapEnabled : Bool) (headPos : Vec3) (spine : List Vec3) :
    Prop :=
  ∃ i : ℕ, 18 ≤ i ∧ i < spine.length ∧
    hitDistOf wrapEnabled headPos (spine.getD i ⟨0, 0, 0⟩) < 0.72

open Classical in
/-- The tail of `step` in wrap mode (lines 584-607), after boundary handling:
spine integration, food pickup, self-collision. -/
def stepRunWrap (s : GameState) (newFood : Vec3) (headPos1 : Vec3) (yaw1 : ℝ) :
    GameState :=
  let w := applyWrap headPos1 s.spine s.cameraPos
  let desiredLength := BASE_LENGTH + (s.score : ℝ) * LENGTH_PER_SCORE
  let spine2 := integrateSpine w.1 desiredLength w.2.1
  let ate := torusDistanceXZ w.1 s.foodPos < HEAD_RADIUS + FOOD_RADIUS
  { headPos := w.1
    yaw := yaw1
    spine := spine2
    foodPos := if ate then newFood else s.foodPos
    score := if ate then s.score + 1 else s.score
    cameraPos := w.2.2
    isPaused := s.isPaused
    isGameOver := if selfCollisionHit true w.1 spine2 then true else s.isGameOver }

open Classical in
/-- The tail of `step` in bounded mode away from walls (lines 584-607). -/
def stepRunBounded (s : GameState) (newFood : Vec3) (headPos1 : Vec3) (yaw1 : ℝ) :
    GameState :=
  let desiredLength := BASE_LENGTH + (s.score : ℝ) * LENGTH_PER_SCORE
  let spine2 := integrateSpine headPos1 desiredLength s.spine
  let ate := distanceTo headPos1 s.foodPos < HEAD_RADIUS + FOOD_RADIUS
  { headPos := headPos1
    yaw := yaw1
    spine := spine2
    foodPos := if ate then newFood else s.foodPos
    score := if ate then s.score + 1 else s.score
    cameraPos := s.cameraPos
    isPaused := s.isPaused
    isGameOver := if selfCollisionHit false headPos1 spine2 then true else s.isGameOver }

open Classical in
/-- `step` (lines 539-608): early-return while paused or game over; otherwise
steer, integrate the head, apply the arena-boundary policy, integrate and trim
the spine, resolve food pickup, test self-collision.  `newFood` stands for the
random position `randomFoodPosition` would produce on pickup. -/
def step (cfg : Config) (c : ControlsState) (newFood : Vec3) (dt : ℝ)
    (s : GameState) : GameState :=
  if s.isPaused || s.isGameOver then s
  else
    let yaw1 := newYaw cfg c dt s
    let headPos1 := movedHead cfg c dt s
    if cfg.wrapEnabled then stepRunWrap s newFood headPos1 yaw1
    else
      if |headPos1.x| > HALF_ARENA - 0.6 ∨ |headPos1.z| > HALF_ARENA - 0.6 then
        { s with headPos := headPos1, yaw := yaw1, isGameOver := true }
      else stepRunBounded s newFood headPos1 yaw1

/-- The controls snapshot with no input active. -/
def neutralControls : ControlsState := ⟨false, false, false, false, 0, 0⟩

/-- The state produced by `resetGame` (lines 344-355), up to the random food
position; the camera rig position is NOT reset and is kept as a parameter. -/
def initialState (foodPos cameraPos : Vec3) : GameState :=
  ⟨⟨0, 0, 0⟩, 0, [⟨0, 0, 0⟩], foodPos, 0, cameraPos, false, false⟩

/-! ### Scene/render adapter: body segment transforms (lines 490-507) -/

/-- `maxInstances` (line 307). -/
def maxInstances : ℕ := 1500

/-- `maxSegments` (line 490): `min(floor(desiredLength / SEGMENT_SPACING) + 1,
maxInstances)`. -/
def maxSegments (desiredLength : ℝ) : ℤ :=
  min (⌊desiredLength / SEGMENT_SPACING⌋ + 1) (maxInstances : ℤ)

/-- Number of instanced body segments actually drawn (line 506):
`snakeMesh.count = max(maxSegments - 1, 0)` — the head is a separate mesh. -/
def bodySegmentCount (desiredLength : ℝ) : ℤ :=
  max (maxSegments desiredLength - 1) 0

/-- Per-slot scale (lines 498-499): `1.1 - 0.35 * (i / max(maxSegments-1,1))`. -/
def segmentScale (desiredLength : ℝ) (i : ℕ) : ℝ :=
  1.1 - 0.35 * ((i : ℝ) / ((max (maxSegments desiredLength - 1) 1 : ℤ) : ℝ))

/-- Position of the segment for loop index `i` (lines 492-495): sample the
spine at arc length `i * SEGMENT_SPACING`, wrap, set y to 0.5. -/
def segmentPosition (spine : List Vec3) (i : ℕ) : Vec3 :=
  let pw := wrapVectorXZ (sampleAlongSpine spine ((i : ℝ) * SEGMENT_SPACING))
  ⟨pw.x, 0.5, pw.z⟩

/-- The body-segment transforms emitted per frame: loop indices
`i = 1 .. maxSegments-1` (line 491), instance `i-1` gets the transform for
loop index `i`. -/
def bodyTransforms (spine : List Vec3) (desiredLength : ℝ) : List (Vec3 × ℝ) :=
  (List.range' 1 (bodySegmentCount desiredLength).toNat).map
    fun i => (segmentPosition spine i, segmentScale desiredLength i)

/-! ### Claim theorems -/

/-- C2, counterexample: at `d = 30` the code returns `-30`, which is NOT in the
claimed half-open-above interval `(-ARENA_SIZE/2, ARENA_SIZE/2]`. -/
theorem C2_counterexample :
    wrapDelta (30 : ℝ) = -(ARENA_SIZE / 2) ∧
      ¬ (-(ARENA_SIZE / 2) < wrapDelta (30 : ℝ)) := by
  have h : wrapDelta (30 : ℝ) = (30 : ℝ) - (1 : ℤ) * ARENA_SIZE := by
    rw [wrapDelta_eq_wrapCoord]
    apply wrapCoord_eq_sub
    · norm_num [ARENA_SIZE, HALF_ARENA]
    · norm_num [ARENA_SIZE, HALF_ARENA]
  rw [h]
  norm_num [ARENA_SIZE]

/-- C2 (amended): `wrapDelta d` lies in the half-open-BELOW interval
`[-ARENA_SIZE/2, ARENA_SIZE/2)`, is congruent to `d` modulo `ARENA_SIZE`, and
has minimal absolute value among all such representatives. -/
theorem C2_wrapDelta_shortest (d : ℝ) :
    (-(ARENA_SIZE / 2) ≤ wrapDelta d ∧ wrapDelta d < ARENA_SIZE / 2) ∧
    (∃ k : ℤ, d - wrapDelta d = k * ARENA_SIZE) ∧
    (∀ y : ℝ, (∃ k : ℤ, d - y = k * ARENA_SIZE) → |wrapDelta d| ≤ |y|) := by
  rw [wrapDelta_eq_wrapCoord]
  exact ⟨wrapCoord_mem d, wrapCoord_congr d, fun y hy => wrapCoord_abs_min d y hy⟩

/-- C2 witness: the amended theorem applied at `d = 90` with representative
`y = 150` (so `90 - 150 = -1 * ARENA_SIZE`). -/
theorem C2_wrapDelta_shortest_witness :
    (-(ARENA_SIZE / 2) ≤ wrapDelta (90 : ℝ) ∧ wrapDelta (90 : ℝ) < ARENA_SIZE / 2) ∧
      |wrapDelta (90 : ℝ)| ≤ |(150 : ℝ)| :=
  ⟨(C2_wrapDelta_shortest 90).1,
    (C2_wrapDelta_shortest 90).2.2 150 ⟨-1, by norm_num [ARENA_SIZE]⟩⟩

/-- C4: `wrapCoord` (the spec's `wrapAxis`) always lands in the canonical
half-open interval `[-ARENA_SIZE/2, ARENA_SIZE/2)` and is periodic under
integer multiples of `ARENA_SIZE`, including for negative inputs. -/
theorem C4_wrapCoord_range_periodic (v : ℝ) (k : ℤ) :
    (-(ARENA_SIZE / 2) ≤ wrapCoord v ∧ wrapCoord v < ARENA_SIZE / 2) ∧
    wrapCoord (v + k * ARENA_SIZE) = wrapCoord v :=
  ⟨wrapCoord_mem v, wrapCoord_add_int v k⟩

/-- C10: `wrapCoord` and `wrapDelta` have identical bodies, hence are
extensionally equal functions. -/
theorem C10_wrapCoord_eq_wrapDelta (v : ℝ) : wrapCoord v = wrapDelta v := rfl

lemma wrapDelta_zero : wrapDelta (0 : ℝ) = 0 := by
  rw [wrapDelta_eq_wrapCoord]
  exact wrapCoord_eq_self (by norm_num [HALF_ARENA, ARENA_SIZE])
    (by norm_num [HALF_ARENA, ARENA_SIZE])

/-- C5, counterexample: two points differing only in y have every per-axis
difference well below `ARENA_SIZE/2`, yet `torusDistanceXZ` (which ignores y)
is `0` while the 3D Euclidean `distanceTo` is `1`. -/
theorem C5_counterexample :
    |(Vec3.mk 0 1 0).x - (Vec3.mk 0 0 0).x| ≤ ARENA_SIZE / 2 ∧
    |(Vec3.mk 0 1 0).y - (Vec3.mk 0 0 0).y| ≤ ARENA_SIZE / 2 ∧
    |(Vec3.mk 0 1 0).z - (Vec3.mk 0 0 0).z| ≤ ARENA_SIZE / 2 ∧
    torusDistanceXZ ⟨0, 1, 0⟩ ⟨0, 0, 0⟩ ≠ distanceTo ⟨0, 1, 0⟩ ⟨0, 0, 0⟩ := by
  have ht : torusDistanceXZ ⟨0, 1, 0⟩ ⟨0, 0, 0⟩ = 0 := by
    rw [torusDistanceXZ]
    norm_num [wrapDelta_zero, Real.sqrt_zero]
  have he : distanceTo ⟨0, 1, 0⟩ ⟨0, 0, 0⟩ = 1 := by
    rw [distanceTo, vecLength]
    apply sqrt_eval (by norm_num)
    norm_num
  refine ⟨by norm_num [ARENA_SIZE], by norm_num [ARENA_SIZE],
    by norm_num [ARENA_SIZE], ?_⟩
  rw [ht, he]
  norm_num

/-- C5 (amended): the torus distance never exceeds the Euclidean distance, and
they agree whenever the two points share a y coordinate and both horizontal
per-axis differences have absolute value at most `ARENA_SIZE/2`. -/
theorem C5_torus_le_euclid (a b : Vec3) :
    torusDistanceXZ a b ≤ distanceTo a b ∧
    (a.y = b.y → |a.x - b.x| ≤ ARENA_SIZE / 2 → |a.z - b.z| ≤ ARENA_SIZE / 2 →
      torusDistanceXZ a b = distanceTo a b) := by
  constructor
  · rw [torusDistanceXZ, distanceTo, vecLength]
    dsimp only
    apply Real.sqrt_le_sqrt
    have hx : (wrapDelta (a.x - b.x)) ^ 2 ≤ (a.x - b.x) ^ 2 := by
      rw [wrapDelta_eq_wrapCoord]
      calc (wrapCoord (a.x - b.x)) ^ 2 = |wrapCoord (a.x - b.x)| ^ 2 :=
            (sq_abs _).symm
        _ ≤ |a.x - b.x| ^ 2 :=
            pow_le_pow_left₀ (abs_nonneg _) (wrapCoord_abs_le_self _) 2
        _ = (a.x - b.x) ^ 2 := sq_abs _
    have hz : (wrapDelta (a.z - b.z)) ^ 2 ≤ (a.z - b.z) ^ 2 := by
      rw [wrapDelta_eq_wrapCoord]
      calc (wrapCoord (a.z - b.z)) ^ 2 = |wrapCoord (a.z - b.z)| ^ 2 :=
            (sq_abs _).symm
        _ ≤ |a.z - b.z| ^ 2 :=
            pow_le_pow_left₀ (abs_nonneg _) (wrapCoord_abs_le_self _) 2
        _ = (a.z - b.z) ^ 2 := sq_abs _
    nlinarith [sq_nonneg (a.y - b.y)]
  · intro hy hx hz
    rw [torusDistanceXZ, distanceTo, vecLength]
    dsimp only
    have h1 : (wrapDelta (a.x - b.x)) ^ 2 = (a.x - b.x) ^ 2 := by
      rw [wrapDelta_eq_wrapCoord]
      exact wrapCoord_sq_of_abs_le hx
    have h2 : (wrapDelta (a.z - b.z)) ^ 2 = (a.z - b.z) ^ 2 := by
      rw [wrapDelta_eq_wrapCoord]
      exact wrapCoord_sq_of_abs_le hz
    have h3 : (a.y - b.y) ^ 2 = 0 := by
      rw [hy]
      ring
    congr 1
    rw [h1, h2, h3]
    ring

/-- C5 witness: the amended equality applied to the concrete points
`(1, 2, 3)` and `(0, 2, 1)` (equal y, small horizontal differences). -/
theorem C5_torus_le_euclid_witness :
    torusDistanceXZ ⟨1, 2, 3⟩ ⟨0, 2, 1⟩ = distanceTo ⟨1, 2, 3⟩ ⟨0, 2, 1⟩ :=
  (C5_torus_le_euclid ⟨1, 2, 3⟩ ⟨0, 2, 1⟩).2 rfl (by norm_num [ARENA_SIZE])
    (by norm_num [ARENA_SIZE])

/-- C3: for every spine and every `desiredLength ≥ 0`, the trimmed spine's
cumulative length never exceeds `desiredLength` (in the exact-real model the
excess is zero, well within one floating-point epsilon), and when the pre-trim
cumulative length is at least `desiredLength` the trimmed length is exactly
`desiredLength`. -/
theorem C3_trimToLength_exact (spine : List Vec3) (d : ℝ) (hd : 0 ≤ d) :
    cumLen (trimToLength spine d) ≤ d ∧
    (d ≤ cumLen spine → cumLen (trimToLength spine d) = d) :=
  ⟨cumLen_trimToLength_le spine d hd, cumLen_trimToLength_eq spine d hd⟩

/-- C3 witness: a two-point spine of length 3 trimmed to length 1. -/
theorem C3_trimToLength_exact_witness :
    cumLen (trimToLength [⟨0, 0, 0⟩, ⟨3, 0, 0⟩] 1) ≤ 1 ∧
      cumLen (trimToLength [⟨0, 0, 0⟩, ⟨3, 0, 0⟩] 1) = 1 := by
  have hc : cumLen [(⟨0, 0, 0⟩ : Vec3), ⟨3, 0, 0⟩] = 3 := by
    rw [cumLen_pair, distanceTo, vecLength]
    apply sqrt_eval (by norm_num)
    norm_num
  have h := C3_trimToLength_exact [⟨0, 0, 0⟩, ⟨3, 0, 0⟩] 1 (by norm_num)
  exact ⟨h.1, h.2 (by rw [hc]; norm_num)⟩

/-! ### Helpers for reasoning about `step` -/

/-- While paused or game over, `step` early-returns the state unchanged. -/
lemma step_not_running (cfg : Config) (c : ControlsState) (nf : Vec3) (dt : ℝ)
    (s : GameState) (h : s.isPaused = true ∨ s.isGameOver = true) :
    step cfg c nf dt s = s := by
  unfold step
  rcases h with h | h <;> rw [h] <;> simp

/-- In running wrap mode, `step` is the wrap-branch tail. -/
lemma step_running_wrap (cfg : Config) (c : ControlsState) (nf : Vec3) (dt : ℝ)
    (s : GameState) (hw : cfg.wrapEnabled = true) (hp : s.isPaused = false)
    (hg : s.isGameOver = false) :
    step cfg c nf dt s =
      stepRunWrap s nf (movedHead cfg c dt s) (newYaw cfg c dt s) := by
  unfold step
  rw [hp, hg, hw]
  simp

/-- In running bounded mode with the moved head out of bounds, `step` only
records the moved head, the new yaw and the game-over flag. -/
lemma step_running_bounded_wall (cfg : Config) (c : ControlsState) (nf : Vec3)
    (dt : ℝ) (s : GameState) (hw : cfg.wrapEnabled = false)
    (hp : s.isPaused = false) (hg : s.isGameOver = false)
    (hwall : |(movedHead cfg c dt s).x| > HALF_ARENA - 0.6 ∨
      |(movedHead cfg c dt s).z| > HALF_ARENA - 0.6) :
    step cfg c nf dt s =
      { s with
          headPos := movedHead cfg c dt s
          yaw := newYaw cfg c dt s
          isGameOver := true } := by
  unfold step
  rw [hp, hg, hw]
  simp only [Bool.or_self, Bool.false_eq_true, if_false, if_pos hwall]

/-- A head position already in canonical range produces no wrap shift. -/
lemma applyWrap_id (h : Vec3) (spine : List Vec3) (cam : Vec3)
    (hx1 : -HALF_ARENA ≤ h.x) (hx2 : h.x < HALF_ARENA)
    (hz1 : -HALF_ARENA ≤ h.z) (hz2 : h.z < HALF_ARENA) :
    applyWrap h spine cam = (h, spine, cam) := by
  unfold applyWrap
  rw [wrapCoord_eq_self hx1 hx2, wrapCoord_eq_self hz1 hz2]
  simp

/-- The XZ translation of a spine by a wrap shift. -/
def shiftSpine (spine : List Vec3) (sx sz : ℝ) : List Vec3 :=
  spine.map fun p => ⟨p.x - sx, p.y, p.z - sz⟩

/-- When the head actually crossed a boundary, `applyWrap` refolds the head
and translates the spine and camera by the head's shift. -/
lemma applyWrap_shift (h : Vec3) (spine : List Vec3) (cam : Vec3)
    (hcross : wrapCoord h.x ≠ h.x ∨ wrapCoord h.z ≠ h.z) :
    applyWrap h spine cam =
      (⟨wrapCoord h.x, h.y, wrapCoord h.z⟩,
        shiftSpine spine (h.x - wrapCoord h.x) (h.z - wrapCoord h.z),
        ⟨cam.x - (h.x - wrapCoord h.x), cam.y, cam.z - (h.z - wrapCoord h.z)⟩) := by
  have hc : h.x - wrapCoord h.x ≠ 0 ∨ h.z - wrapCoord h.z ≠ 0 := by
    rcases hcross with h' | h'
    · exact Or.inl (sub_ne_zero_of_ne (Ne.symm h'))
    · exact Or.inr (sub_ne_zero_of_ne (Ne.symm h'))
  unfold applyWrap
  rw [if_pos hc]
  rfl

lemma shiftSpine_getD (spine : List Vec3) (sx sz : ℝ) :
    ∀ i : ℕ, i < spine.length →
      (shiftSpine spine sx sz).getD i ⟨0, 0, 0⟩ =
        ⟨(spine.getD i ⟨0, 0, 0⟩).x - sx, (spine.getD i ⟨0, 0, 0⟩).y,
          (spine.getD i ⟨0, 0, 0⟩).z - sz⟩ := by
  induction spine with
  | nil => intro i hi; simp at hi
  | cons a t ih =>
    intro i hi
    cases i with
    | zero => simp [shiftSpine]
    | succ n =>
      simp only [shiftSpine, List.map_cons, List.getD_cons_succ]
      exact ih n (by simpa using hi)

/-- Pairwise distances between spine points are invariant under the shift. -/
lemma shiftSpine_dist (spine : List Vec3) (sx sz : ℝ) (i j : ℕ)
    (hi : i < spine.length) (hj : j < spine.length) :
    distanceTo ((shiftSpine spine sx sz).getD i ⟨0, 0, 0⟩)
        ((shiftSpine spine sx sz).getD j ⟨0, 0, 0⟩) =
      distanceTo (spine.getD i ⟨0, 0, 0⟩) (spine.getD j ⟨0, 0, 0⟩) := by
  rw [shiftSpine_getD spine sx sz i hi, shiftSpine_getD spine sx sz j hj,
    distanceTo_shift]

/-! ### Evaluation of the step under neutral controls -/

lemma clamp_zero : clamp 0 (-1) 1 = 0 := by
  rw [clamp, max_eq_left (by norm_num : (-1 : ℝ) ≤ 0),
    min_eq_left (by norm_num : (0 : ℝ) ≤ 1)]

lemma steerOf_neutral : steerOf neutralControls = 0 := by
  simp [steerOf, neutralControls]

lemma speedAxisOf_neutral : speedAxisOf neutralControls = 0 := by
  simp [speedAxisOf, neutralControls]

lemma speedOf_neutral : speedOf neutralControls = BASE_SPEED := by
  rw [speedOf, speedAxisOf_neutral]
  rw [show -(0 : ℝ) = 0 by ring, clamp_zero]
  ring

lemma newYaw_neutral (cfg : Config) (dt : ℝ) (s : GameState) :
    newYaw cfg neutralControls dt s = s.yaw := by
  rw [newYaw, steerOf_neutral, clamp_zero]
  ring

/-- Under neutral controls the head advances by `BASE_SPEED * dt` along the
forward vector of the unchanged yaw. -/
lemma movedHead_neutral (cfg : Config) (dt : ℝ) (s : GameState) :
    movedHead cfg neutralControls dt s =
      ⟨s.headPos.x + Real.sin s.yaw * (BASE_SPEED * dt), s.headPos.y,
        s.headPos.z + -Real.cos s.yaw * (BASE_SPEED * dt)⟩ := by
  unfold movedHead
  rw [newYaw_neutral, forwardFromYaw_eq, speedOf_neutral]
  dsimp only
  congr 1
  ring

/-- In the wrap branch, the game-over flag of the resulting state is exactly
the self-collision test on the resulting head and spine. -/
lemma stepRunWrap_gameOver_iff (s : GameState) (nf h1 : Vec3) (y1 : ℝ)
    (hg : s.isGameOver = false) :
    ((stepRunWrap s nf h1 y1).isGameOver = true ↔
      selfCollisionHit true (stepRunWrap s nf h1 y1).headPos
        (stepRunWrap s nf h1 y1).spine) := by
  simp only [stepRunWrap]
  rw [hg]
  by_cases hhit : selfCollisionHit true (applyWrap h1 s.spine s.cameraPos).1
      (integrateSpine (applyWrap h1 s.spine s.cameraPos).1
        (BASE_LENGTH + (s.score : ℝ) * LENGTH_PER_SCORE)
        (applyWrap h1 s.spine s.cameraPos).2.1)
  · simp [hhit]
  · simp [hhit]

/-- C1: the self-collision test only looks at spine samples at index 18 and
beyond: a sample at index ≥ 19 within 0.72 of the head triggers it, samples
below index 18 can never trigger it on their own, and in a running wrap-mode
step the resulting game-over flag is exactly this test applied to the
step's own resulting head and spine. -/
theorem C1_selfCollision_exclusion_zone (wrap : Bool) (h : Vec3)
    (spine : List Vec3) :
    ((∃ i : ℕ, 19 ≤ i ∧ i < spine.length ∧
        hitDistOf wrap h (spine.getD i ⟨0, 0, 0⟩) < 0.72) →
      selfCollisionHit wrap h spine) ∧
    ((∀ i : ℕ, 18 ≤ i → i < spine.length →
        ¬ hitDistOf wrap h (spine.getD i ⟨0, 0, 0⟩) < 0.72) →
      ¬ selfCollisionHit wrap h spine) ∧
    (∀ (cfg : Config) (c : ControlsState) (nf : Vec3) (dt : ℝ) (s : GameState),
      cfg.wrapEnabled = true → s.isPaused = false → s.isGameOver = false →
      ((step cfg c nf dt s).isGameOver = true ↔
        selfCollisionHit true (step cfg c nf dt s).headPos
          (step cfg c nf dt s).spine)) := by
  refine ⟨?_, ?_, ?_⟩
  · rintro ⟨i, h19, hlen, hd⟩
    exact ⟨i, by omega, hlen, hd⟩
  · rintro hall ⟨i, h18, hlen, hd⟩
    exact hall i h18 hlen hd
  · intro cfg c nf dt s hw hp hg
    rw [step_running_wrap cfg c nf dt s hw hp hg]
    exact stepRunWrap_gameOver_iff s nf _ _ hg

def farP : Vec3 := ⟨10, 0, 0⟩

def closeP : Vec3 := ⟨0.5, 0, 0⟩

/-- A 20-sample spine whose only sample near the origin is at index 19. -/
def spineA : List Vec3 :=
  [farP, farP, farP, farP, farP, farP, farP, farP, farP, farP,
   farP, farP, farP, farP, farP, farP, farP, farP, farP, closeP]

/-- A 20-sample spine whose only sample near the origin is at index 0. -/
def spineB : List Vec3 :=
  [closeP, farP, farP, farP, farP, farP, farP, farP, farP, farP,
   farP, farP, farP, farP, farP, farP, farP, farP, farP, farP]

lemma torus_origin_farP : torusDistanceXZ ⟨0, 0, 0⟩ farP = 10 := by
  rw [torusDistanceXZ, farP]
  dsimp only
  rw [show (0 : ℝ) - 10 = -10 by ring, show (0 : ℝ) - 0 = 0 by ring,
    wrapDelta_zero, wrapDelta_eq_wrapCoord,
    wrapCoord_eq_self (by norm_num [HALF_ARENA, ARENA_SIZE])
      (by norm_num [HALF_ARENA, ARENA_SIZE])]
  apply sqrt_eval (by norm_num)
  norm_num

lemma torus_origin_closeP : torusDistanceXZ ⟨0, 0, 0⟩ closeP = 0.5 := by
  rw [torusDistanceXZ, closeP]
  dsimp only
  rw [show (0 : ℝ) - 0.5 = -0.5 by ring, show (0 : ℝ) - 0 = 0 by ring,
    wrapDelta_zero, wrapDelta_eq_wrapCoord,
    wrapCoord_eq_self (by norm_num [HALF_ARENA, ARENA_SIZE])
      (by norm_num [HALF_ARENA, ARENA_SIZE])]
  apply sqrt_eval (by norm_num)
  norm_num

/-- C1 witness: with the head at the origin, `spineA` (close sample at index
19) trips the self-collision test while `spineB` (close sample only at index
0) does not. -/
theorem C1_selfCollision_exclusion_zone_witness :
    selfCollisionHit true ⟨0, 0, 0⟩ spineA ∧
      ¬ selfCollisionHit true ⟨0, 0, 0⟩ spineB := by
  constructor
  · apply (C1_selfCollision_exclusion_zone true ⟨0, 0, 0⟩ spineA).1
    refine ⟨19, by norm_num, by simp [spineA], ?_⟩
    have hget : spineA.getD 19 ⟨0, 0, 0⟩ = closeP := by simp [spineA]
    rw [hget, hitDistOf, if_pos rfl, torus_origin_closeP]
    norm_num
  · apply (C1_selfCollision_exclusion_zone true ⟨0, 0, 0⟩ spineB).2.1
    intro i h18 hlen
    have hlen' : i < 20 := by simpa [spineB] using hlen
    have hget : spineB.getD i ⟨0, 0, 0⟩ = farP := by
      interval_cases i <;> simp [spineB]
    rw [hget, hitDistOf, if_pos rfl, torus_origin_farP]
    norm_num

/-- C8: from a fresh game state (head at the origin, yaw 0, wrap enabled) with
all steer and speed inputs zero, one step with `dt = 0.1` leaves the yaw at 0
(`clamp(0)*TURN_SPEED*sens*dt = 0`) and moves the head to
`z = -BASE_SPEED * 0.1` with x unchanged, for every steering sensitivity,
food position, respawn position and camera rig position. -/
theorem C8_first_step (sens : ℝ) (food nf cam : Vec3) :
    (step ⟨true, sens⟩ neutralControls nf 0.1 (initialState food cam)).headPos.x
        = 0 ∧
    (step ⟨true, sens⟩ neutralControls nf 0.1 (initialState food cam)).headPos.z
        = -(BASE_SPEED * 0.1) ∧
    (step ⟨true, sens⟩ neutralControls nf 0.1 (initialState food cam)).yaw = 0 := by
  have hmh : movedHead ⟨true, sens⟩ neutralControls 0.1 (initialState food cam) =
      ⟨0, 0, -(BASE_SPEED * 0.1)⟩ := by
    rw [movedHead_neutral]
    show (⟨0 + Real.sin 0 * (BASE_SPEED * 0.1), 0,
      0 + -Real.cos 0 * (BASE_SPEED * 0.1)⟩ : Vec3) = _
    rw [Real.sin_zero, Real.cos_zero]
    congr 1 <;> ring
  have hyaw : newYaw ⟨true, sens⟩ neutralControls 0.1 (initialState food cam) = 0 := by
    rw [newYaw_neutral]
    rfl
  rw [step_running_wrap _ _ _ _ _ rfl rfl rfl, hmh, hyaw]
  have hid : applyWrap (⟨0, 0, -(BASE_SPEED * 0.1)⟩ : Vec3)
      (initialState food cam).spine (initialState food cam).cameraPos =
      (⟨0, 0, -(BASE_SPEED * 0.1)⟩, (initialState food cam).spine,
        (initialState food cam).cameraPos) := by
    apply applyWrap_id <;> norm_num [BASE_SPEED, HALF_ARENA, ARENA_SIZE]
  simp only [stepRunWrap]
  rw [hid]
  exact ⟨rfl, rfl, trivial⟩

/-- C9: while paused or game over the step mutates nothing at all; and in
bounded mode, a running step whose integrated head leaves
`[-(HALF_ARENA-0.6), HALF_ARENA-0.6]` on x or z sets `isGameOver`, after which
every further step (any inputs, any dt) returns the state unchanged. -/
theorem C9_frozen_after_gameover :
    (∀ (cfg : Config) (c : ControlsState) (nf : Vec3) (dt : ℝ) (s : GameState),
        s.isPaused = true ∨ s.isGameOver = true → step cfg c nf dt s = s) ∧
    (∀ (cfg : Config) (c : ControlsState) (nf : Vec3) (dt : ℝ) (s : GameState),
        cfg.wrapEnabled = false → s.isPaused = false → s.isGameOver = false →
        (|(movedHead cfg c dt s).x| > HALF_ARENA - 0.6 ∨
          |(movedHead cfg c dt s).z| > HALF_ARENA - 0.6) →
        (step cfg c nf dt s).isGameOver = true ∧
          ∀ (c2 : ControlsState) (nf2 : Vec3) (dt2 : ℝ),
            step cfg c2 nf2 dt2 (step cfg c nf dt s) = step cfg c nf dt s) := by
  constructor
  · exact fun cfg c nf dt s h => step_not_running cfg c nf dt s h
  · intro cfg c nf dt s hw hp hg hwall
    have hstep := step_running_bounded_wall cfg c nf dt s hw hp hg hwall
    refine ⟨by rw [hstep], fun c2 nf2 dt2 => ?_⟩
    apply step_not_running
    right
    rw [hstep]

/-- A state paused mid-game. -/
def c9pausedState : GameState :=
  ⟨⟨1, 0, 2⟩, 0.3, [⟨0, 0, 0⟩], ⟨3, 0, 3⟩, 2, ⟨0, 5, 5⟩, true, false⟩

/-- A running bounded-mode state one step away from the -z wall. -/
def c9wallState : GameState :=
  ⟨⟨0, 0, -29⟩, 0, [⟨0, 0, -1⟩], ⟨5, 0, 5⟩, 0, ⟨0, 0, 0⟩, false, false⟩

lemma c9_movedHead :
    movedHead ⟨false, 1⟩ neutralControls 0.1 c9wallState = ⟨0, 0, -29.8⟩ := by
  rw [movedHead_neutral]
  show (⟨0 + Real.sin 0 * (BASE_SPEED * 0.1), 0,
    -29 + -Real.cos 0 * (BASE_SPEED * 0.1)⟩ : Vec3) = _
  rw [Real.sin_zero, Real.cos_zero]
  congr 1 <;> norm_num [BASE_SPEED]

/-- C9 witness: the paused state is returned unchanged, and driving the wall
state forward sets game over and freezes every subsequent step. -/
theorem C9_frozen_after_gameover_witness :
    step ⟨true, 1⟩ neutralControls ⟨0, 0, 0⟩ 0.1 c9pausedState = c9pausedState ∧
    (step ⟨false, 1⟩ neutralControls ⟨9, 0, 9⟩ 0.1 c9wallState).isGameOver = true ∧
    step ⟨false, 1⟩ neutralControls ⟨9, 0, 9⟩ 0.2
        (step ⟨false, 1⟩ neutralControls ⟨9, 0, 9⟩ 0.1 c9wallState) =
      step ⟨false, 1⟩ neutralControls ⟨9, 0, 9⟩ 0.1 c9wallState := by
  have hwall : |(movedHead ⟨false, 1⟩ neutralControls 0.1 c9wallState).x| >
      HALF_ARENA - 0.6 ∨
      |(movedHead ⟨false, 1⟩ neutralControls 0.1 c9wallState).z| >
      HALF_ARENA - 0.6 := by
    right
    rw [c9_movedHead, show ((⟨0, 0, -29.8⟩ : Vec3)).z = -29.8 from rfl,
      abs_of_nonpos (by norm_num)]
    norm_num [HALF_ARENA, ARENA_SIZE]
  have h2 := C9_frozen_after_gameover.2 ⟨false, 1⟩ neutralControls ⟨9, 0, 9⟩ 0.1
    c9wallState rfl rfl rfl hwall
  exact ⟨C9_frozen_after_gameover.1 ⟨true, 1⟩ neutralControls ⟨0, 0, 0⟩ 0.1
    c9pausedState (Or.inl rfl), h2.1, h2.2 neutralControls ⟨9, 0, 9⟩ 0.2⟩

/-- C6: in a running wrap-mode step whose integrated head crossed an arena
boundary, the resulting head x/z are the refolded coordinates and lie in the
canonical range, the camera rig is translated by exactly the head's shift,
the step's spine is the integration of the refolded head onto the spine whose
every existing point was translated by that same shift, and that translation
preserves all pairwise distances between spine points. -/
theorem C6_wrap_shift (cfg : Config) (c : ControlsState) (nf : Vec3) (dt : ℝ)
    (s : GameState) (hw : cfg.wrapEnabled = true) (hp : s.isPaused = false)
    (hg : s.isGameOver = false)
    (hcross : wrapCoord (movedHead cfg c dt s).x ≠ (movedHead cfg c dt s).x ∨
      wrapCoord (movedHead cfg c dt s).z ≠ (movedHead cfg c dt s).z) :
    ((step cfg c nf dt s).headPos.x = wrapCoord (movedHead cfg c dt s).x ∧
      (step cfg c nf dt s).headPos.z = wrapCoord (movedHead cfg c dt s).z) ∧
    (-(ARENA_SIZE / 2) ≤ (step cfg c nf dt s).headPos.x ∧
      (step cfg c nf dt s).headPos.x < ARENA_SIZE / 2 ∧
      -(ARENA_SIZE / 2) ≤ (step cfg c nf dt s).headPos.z ∧
      (step cfg c nf dt s).headPos.z < ARENA_SIZE / 2) ∧
    ((step cfg c nf dt s).cameraPos =
      ⟨s.cameraPos.x -
          ((movedHead cfg c dt s).x - wrapCoord (movedHead cfg c dt s).x),
        s.cameraPos.y,
        s.cameraPos.z -
          ((movedHead cfg c dt s).z - wrapCoord (movedHead cfg c dt s).z)⟩) ∧
    ((step cfg c nf dt s).spine =
      integrateSpine
        ⟨wrapCoord (movedHead cfg c dt s).x, (movedHead cfg c dt s).y,
          wrapCoord (movedHead cfg c dt s).z⟩
        (BASE_LENGTH + (s.score : ℝ) * LENGTH_PER_SCORE)
        (shiftSpine s.spine
          ((movedHead cfg c dt s).x - wrapCoord (movedHead cfg c dt s).x)
          ((movedHead cfg c dt s).z - wrapCoord (movedHead cfg c dt s).z))) ∧
    (∀ i j : ℕ, i < s.spine.length → j < s.spine.length →
      distanceTo
          ((shiftSpine s.spine
            ((movedHead cfg c dt s).x - wrapCoord (movedHead cfg c dt s).x)
            ((movedHead cfg c dt s).z - wrapCoord (movedHead cfg c dt s).z)).getD
              i ⟨0, 0, 0⟩)
          ((shiftSpine s.spine
            ((movedHead cfg c dt s).x - wrapCoord (movedHead cfg c dt s).x)
            ((movedHead cfg c dt s).z - wrapCoord (movedHead cfg c dt s).z)).getD
              j ⟨0, 0, 0⟩) =
        distanceTo (s.spine.getD i ⟨0, 0, 0⟩) (s.spine.getD j ⟨0, 0, 0⟩)) := by
  rw [step_running_wrap cfg c nf dt s hw hp hg]
  have hap := applyWrap_shift (movedHead cfg c dt s) s.spine s.cameraPos hcross
  simp only [stepRunWrap]
  rw [hap]
  refine ⟨⟨rfl, rfl⟩, ?_, rfl, rfl, ?_⟩
  · exact ⟨(wrapCoord_mem _).1, (wrapCoord_mem _).2, (wrapCoord_mem _).1,
      (wrapCoord_mem _).2⟩
  · intro i j hi hj
    exact shiftSpine_dist s.spine _ _ i j hi hj

/-- A running wrap-mode state about to cross the +x boundary. -/
def c6state : GameState :=
  ⟨⟨29.9, 0, 0⟩, Real.pi / 2, [⟨29, 0, 0⟩], ⟨5, 0, 5⟩, 0, ⟨1, 2, 3⟩, false, false⟩

lemma c6_movedHead :
    movedHead ⟨true, 1⟩ neutralControls 0.1 c6state = ⟨30.7, 0, 0⟩ := by
  rw [movedHead_neutral]
  show (⟨29.9 + Real.sin (Real.pi / 2) * (BASE_SPEED * 0.1), 0,
    0 + -Real.cos (Real.pi / 2) * (BASE_SPEED * 0.1)⟩ : Vec3) = _
  rw [Real.sin_pi_div_two, Real.cos_pi_div_two]
  congr 1 <;> norm_num [BASE_SPEED]

lemma c6_wrapCoord : wrapCoord (30.7 : ℝ) = -29.3 := by
  rw [show (-29.3 : ℝ) = 30.7 - (1 : ℤ) * ARENA_SIZE by norm_num [ARENA_SIZE]]
  apply wrapCoord_eq_sub <;> norm_num [HALF_ARENA, ARENA_SIZE]

/-- C6 witness: driving `c6state` across the +x boundary refolds the head into
range and shifts the camera by the head's shift. -/
theorem C6_wrap_shift_witness :
    (step ⟨true, 1⟩ neutralControls ⟨0, 0, 0⟩ 0.1 c6state).headPos.x =
        wrapCoord (movedHead ⟨true, 1⟩ neutralControls 0.1 c6state).x ∧
      -(ARENA_SIZE / 2) ≤
        (step ⟨true, 1⟩ neutralControls ⟨0, 0, 0⟩ 0.1 c6state).headPos.x ∧
      (step ⟨true, 1⟩ neutralControls ⟨0, 0, 0⟩ 0.1 c6state).cameraPos =
        ⟨c6state.cameraPos.x -
            ((movedHead ⟨true, 1⟩ neutralControls 0.1 c6state).x -
              wrapCoord (movedHead ⟨true, 1⟩ neutralControls 0.1 c6state).x),
          c6state.cameraPos.y,
          c6state.cameraPos.z -
            ((movedHead ⟨true, 1⟩ neutralControls 0.1 c6state).z -
              wrapCoord (movedHead ⟨true, 1⟩ neutralControls 0.1 c6state).z)⟩ := by
  have hcross : wrapCoord (movedHead ⟨true, 1⟩ neutralControls 0.1 c6state).x ≠
      (movedHead ⟨true, 1⟩ neutralControls 0.1 c6state).x ∨
      wrapCoord (movedHead ⟨true, 1⟩ neutralControls 0.1 c6state).z ≠
      (movedHead ⟨true, 1⟩ neutralControls 0.1 c6state).z := by
    left
    rw [c6_movedHead, show ((⟨30.7, 0, 0⟩ : Vec3)).x = 30.7 from rfl, c6_wrapCoord]
    norm_num
  have h := C6_wrap_shift ⟨true, 1⟩ neutralControls ⟨0, 0, 0⟩ 0.1 c6state rfl rfl
    rfl hcross
  exact ⟨h.1.1, h.2.1.1, h.2.2.1⟩

lemma getD_map_range' {α : Type} (f : ℕ → α) (d : α) :
    ∀ (n s i : ℕ), i < n → ((List.range' s n).map f).getD i d = f (s + i) := by
  intro n
  induction n with
  | zero => intro s i hi; exact absurd hi (Nat.not_lt_zero i)
  | succ m ih =>
    intro s i hi
    show ((s :: List.range' (s + 1) m).map f).getD i d = f (s + i)
    cases i with
    | zero => simp
    | succ k =>
      simp only [List.map_cons, List.getD_cons_succ]
      rw [ih (s + 1) k (by omega)]
      congr 1
      omega

lemma floor_base_seg : ⌊BASE_LENGTH / SEGMENT_SPACING⌋ = 9 := by
  rw [Int.floor_eq_iff]
  constructor <;> norm_num [BASE_LENGTH, SEGMENT_SPACING]

/-- C7, counterexample: at `desiredLength = BASE_LENGTH` the renderer emits 9
body-segment transforms, not `min(floor(desiredLength/SEGMENT_SPACING)+1,
maxInstances) = 10` — the slot at arc length 0 belongs to the separately drawn
head mesh. -/
theorem C7_counterexample :
    ((bodyTransforms [⟨0, 0, 0⟩] BASE_LENGTH).length : ℤ) ≠
      min (⌊BASE_LENGTH / SEGMENT_SPACING⌋ + 1) (maxInstances : ℤ) := by
  have hlen : (bodyTransforms [(⟨0, 0, 0⟩ : Vec3)] BASE_LENGTH).length = 9 := by
    rw [bodyTransforms, List.length_map, List.length_range', bodySegmentCount,
      maxSegments, floor_base_seg]
    decide
  rw [hlen, floor_base_seg]
  decide

/-- C7 (amended): the renderer emits exactly
`min(floor(desiredLength/SEGMENT_SPACING)+1, maxInstances) - 1` visible
body-segment transforms; the j-th emitted transform (0-based) is sampled at
arc length `(j+1)*SEGMENT_SPACING` from the head with scale
`segmentScale (j+1)`; the scale ramp is linear (uniform taper) reaching 0.75
at the last slot, but its 1.1 endpoint sits at slot 0, which is never emitted
as a body segment. -/
theorem C7_bodyTransforms (spine : List Vec3) (L : ℝ) (hL : 0 ≤ L) :
    ((bodyTransforms spine L).length : ℤ) =
        min (⌊L / SEGMENT_SPACING⌋ + 1) (maxInstances : ℤ) - 1 ∧
    (∀ i : ℕ, i < (bodyTransforms spine L).length →
      (bodyTransforms spine L).getD i (⟨0, 0, 0⟩, 0) =
        (segmentPosition spine (i + 1), segmentScale L (i + 1))) ∧
    segmentScale L 0 = 1.1 ∧
    (2 ≤ maxSegments L →
      segmentScale L ((maxSegments L - 1).toNat) = 0.75) ∧
    (∀ i : ℕ, segmentScale L i - segmentScale L (i + 1) =
      0.35 / ((max (maxSegments L - 1) 1 : ℤ) : ℝ)) := by
  have hM : 1 ≤ maxSegments L := by
    rw [maxSegments]
    apply le_min
    · have h0 : 0 ≤ ⌊L / SEGMENT_SPACING⌋ :=
        Int.floor_nonneg.mpr (div_nonneg hL (by norm_num [SEGMENT_SPACING]))
      omega
    · norm_num [maxInstances]
  have hcount : bodySegmentCount L = maxSegments L - 1 := by
    rw [bodySegmentCount]
    exact max_eq_left (by omega)
  have hlen : (bodyTransforms spine L).length = (bodySegmentCount L).toNat := by
    rw [bodyTransforms, List.length_map, List.length_range']
  refine ⟨?_, ?_, ?_, ?_, ?_⟩
  · rw [hlen, hcount, Int.toNat_of_nonneg (by omega), maxSegments]
  · intro i hi
    rw [hlen] at hi
    rw [bodyTransforms, getD_map_range' _ _ _ 1 i hi, Nat.add_comm 1 i]
  · rw [segmentScale]
    norm_num
  · intro h2
    rw [segmentScale]
    have hD : max (maxSegments L - 1) 1 = maxSegments L - 1 :=
      max_eq_left (by omega)
    rw [hD]
    have hnn : (0 : ℤ) ≤ maxSegments L - 1 := by omega
    have hcast : (((maxSegments L - 1).toNat : ℕ) : ℝ) =
        ((maxSegments L - 1 : ℤ) : ℝ) := by
      exact_mod_cast congrArg (Int.cast : ℤ → ℝ) (Int.toNat_of_nonneg hnn)
    rw [hcast, div_self (by exact_mod_cast (by omega : (maxSegments L - 1 : ℤ) ≠ 0))]
    norm_num
  · intro i
    rw [segmentScale, segmentScale]
    have hne : ((max (maxSegments L - 1) 1 : ℤ) : ℝ) ≠ 0 := by
      exact_mod_cast (by omega : (max (maxSegments L - 1) 1 : ℤ) ≠ 0)
    push_cast
    field_simp
    ring

/-- C7 witness: the amended count and the two scale-ramp endpoints evaluated
at `desiredLength = BASE_LENGTH`. -/
theorem C7_bodyTransforms_witness :
    ((bodyTransforms [⟨0, 0, 0⟩] BASE_LENGTH).length : ℤ) =
        min (⌊BASE_LENGTH / SEGMENT_SPACING⌋ + 1) (maxInstances : ℤ) - 1 ∧
      segmentScale BASE_LENGTH 0 = 1.1 ∧
      segmentScale BASE_LENGTH ((maxSegments BASE_LENGTH - 1).toNat) = 0.75 := by
  have h := C7_bodyTransforms [⟨0, 0, 0⟩] BASE_LENGTH (by norm_num [BASE_LENGTH])
  refine ⟨h.1, h.2.2.1, h.2.2.2.1 ?_⟩
  rw [maxSegments, floor_base_seg]
  decide
